import Mathlib

/-!
Verification development for the yatgo exchange driver core.

The Go source is shallowly embedded: every definition below mirrors one
function of the repository (package driver and package binance).  Network
interaction is made explicit by passing the outcome of each attempted
HTTP round trip (or each method-call round trip) as an oracle argument,
and shared mutable state (the correlator map, the outbound queue, the
back-off gate) is threaded as explicit state.  Machine integers that can
overflow are modelled with explicit reductions modulo 2^64 (Go uint and
int64 arithmetic).
-/

/-! ## Resilient REST client (internal/driver, Client.tryRequest / Client.Get) -/

/-- Outcome kinds for a failed HTTP round trip, as seen by Client.Do. -/
inductive NetErr where
  | connFail : NetErr
  | ctxCanceled : NetErr
  | otherErr : String → NetErr
deriving DecidableEq, Repr

/-- The slice of http.Response that Client.tryRequest inspects: the status
code, plus a tag distinguishing which attempt produced the response. -/
structure HttpResp where
  statusCode : Nat
  tag : Nat
deriving DecidableEq, Repr

/-- Result of one http.Client.Do call: either a response or a network
error (Go returns a nil response exactly when err is non-nil). -/
inductive DoResult where
  | ok : HttpResp → DoResult
  | fail : NetErr → DoResult
deriving DecidableEq, Repr

/-- The break condition of the host loop in Client.tryRequest:
err == nil and resp.StatusCode < 500. -/
def DoResult.isBreak : DoResult → Bool
  | .ok r => r.statusCode < 500
  | .fail _ => false

/-- The (resp, err) pair produced by one Do call. -/
def DoResult.toPair : DoResult → Option HttpResp × Option NetErr
  | .ok r => (some r, none)
  | .fail e => (none, some e)

/-- Loop body of Client.tryRequest over the remaining hosts.  The oracle
doReq gives the outcome of the k-th Do call; i is the index of the next
attempt; last holds the named return values (resp, err) accumulated so
far.  Returns the final (resp, err) pair together with the number of Do
calls performed on this suffix. -/
def tryRequestFrom (doReq : Nat → DoResult) (i : Nat)
    (last : Option HttpResp × Option NetErr) :
    List String → (Option HttpResp × Option NetErr) × Nat
  | [] => (last, 0)
  | _ :: rest =>
    let o := doReq i
    if o.isBreak then (o.toPair, 1)
    else
      let r := tryRequestFrom doReq (i + 1) o.toPair rest
      (r.1, r.2 + 1)

/-- Client.tryRequest: iterate the configured hosts in order, performing
one Do call per host, breaking on the first response with status below
500, and returning the last (resp, err) observed together with the
number of attempts made. -/
def tryRequest (doReq : Nat → DoResult) (hosts : List String) :
    (Option HttpResp × Option NetErr) × Nat :=
  tryRequestFrom doReq 0 (none, none) hosts

/-- Client.Get: builds the https URL and delegates to tryRequest with
method GET; the host iteration behaviour is exactly that of tryRequest. -/
def clientGet (doReq : Nat → DoResult) (hosts : List String) :
    (Option HttpResp × Option NetErr) × Nat :=
  tryRequest doReq hosts

theorem tryRequestFrom_all_advance (doReq : Nat → DoResult) :
    ∀ (hosts : List String) (i : Nat) (last : Option HttpResp × Option NetErr),
    (∀ j < hosts.length, (doReq (i + j)).isBreak = false) →
    tryRequestFrom doReq i last hosts =
      ((match hosts with
        | [] => last
        | _ => (doReq (i + hosts.length - 1)).toPair), hosts.length) := by
  intro hosts
  induction hosts with
  | nil => intro i last _; rfl
  | cons h rest ih =>
    intro i last hall
    have h0 : (doReq i).isBreak = false := by
      have := hall 0 (Nat.succ_pos _)
      simpa using this
    have hrest : ∀ j < rest.length, (doReq (i + 1 + j)).isBreak = false := by
      intro j hj
      have := hall (j + 1) (by simpa using Nat.succ_lt_succ hj)
      simpa [Nat.add_assoc, Nat.add_comm 1 j] using this
    simp only [tryRequestFrom, h0, Bool.false_eq_true, if_false]
    rw [ih (i + 1) (doReq i).toPair hrest]
    cases rest with
    | nil => simp
    | cons h2 rest2 =>
      simp only [List.length_cons]
      have harg : i + 1 + (rest2.length + 1) - 1 = i + (rest2.length + 1 + 1) - 1 := by
        omega
      rw [harg]

theorem tryRequestFrom_break_at (doReq : Nat → DoResult) :
    ∀ (hosts : List String) (i k : Nat)
      (last : Option HttpResp × Option NetErr),
    k < hosts.length →
    (∀ j < k, (doReq (i + j)).isBreak = false) →
    (doReq (i + k)).isBreak = true →
    tryRequestFrom doReq i last hosts = ((doReq (i + k)).toPair, k + 1) := by
  intro hosts
  induction hosts with
  | nil => intro i k last hk; exact absurd hk (by simp)
  | cons h rest ih =>
    intro i k last hk hpre hbrk
    cases k with
    | zero =>
      simp only [Nat.add_zero] at hbrk
      simp [tryRequestFrom, hbrk]
    | succ k0 =>
      have h0 : (doReq i).isBreak = false := by
        have := hpre 0 (Nat.succ_pos _)
        simpa using this
      have hpre2 : ∀ j < k0, (doReq (i + 1 + j)).isBreak = false := by
        intro j hj
        have := hpre (j + 1) (Nat.succ_lt_succ hj)
        simpa [Nat.add_assoc, Nat.add_comm 1 j] using this
      have hbrk2 : (doReq (i + 1 + k0)).isBreak = true := by
        simpa [Nat.add_assoc, Nat.add_comm 1 k0] using hbrk
      have hk2 : k0 < rest.length := by simpa using Nat.lt_of_succ_lt_succ hk
      simp only [tryRequestFrom, h0, Bool.false_eq_true, if_false]
      rw [ih (i + 1) k0 (doReq i).toPair hk2 hpre2 hbrk2]
      have harg : i + 1 + k0 = i + (k0 + 1) := by omega
      simp [harg]

/-- Concrete failover scenario of the spec: the first two hosts are
unreachable, the third responds 200. -/
def doReqScenario : Nat → DoResult := fun i =>
  if i < 2 then .fail .connFail
  else if i = 2 then .ok ⟨200, 3⟩
  else .ok ⟨200, 4⟩

/-- The four production api hosts configured for the client. -/
def apiHosts : List String :=
  ["api.binance.com", "api1.binance.com", "api2.binance.com", "api3.binance.com"]

/-- C1: the client iterates the hosts in order, stops at the first
attempt yielding a response with status below 500, advances on a network
error or a status of at least 500, and after the last host returns the
last error or response observed; with 4 hosts where the first 2 fail and
the 3rd returns 200, Get returns the 3rd response after exactly 3
attempts. -/
theorem get_host_failover :
    (∀ (doReq : Nat → DoResult) (hosts : List String) (k : Nat) (r : HttpResp),
      k < hosts.length →
      (∀ j < k, (doReq j).isBreak = false) →
      doReq k = .ok r → r.statusCode < 500 →
      clientGet doReq hosts = ((some r, none), k + 1)) ∧
    (∀ (doReq : Nat → DoResult) (hosts : List String),
      0 < hosts.length →
      (∀ j < hosts.length, (doReq j).isBreak = false) →
      clientGet doReq hosts = ((doReq (hosts.length - 1)).toPair, hosts.length)) ∧
    clientGet doReqScenario apiHosts = ((some ⟨200, 3⟩, none), 3) := by
  refine ⟨?_, ?_, ?_⟩
  · intro doReq hosts k r hk hpre hr hlt
    have hbrk : (doReq (0 + k)).isBreak = true := by
      simp [Nat.zero_add, hr, DoResult.isBreak, hlt]
    have := tryRequestFrom_break_at doReq hosts 0 k (none, none) hk
      (by intro j hj; simpa using hpre j hj) hbrk
    simpa [clientGet, tryRequest, hr, DoResult.toPair] using this
  · intro doReq hosts hlen hall
    have := tryRequestFrom_all_advance doReq hosts 0 (none, none)
      (by intro j hj; simpa using hall j hj)
    cases hosts with
    | nil => exact absurd hlen (by simp)
    | cons h rest => simpa [clientGet, tryRequest] using this
  · rfl

/-- Witness for C1: the first conjunct applied to the concrete 4-host
scenario, with every hypothesis discharged there. -/
theorem get_host_failover_witness :
    clientGet doReqScenario apiHosts = ((some ⟨200, 3⟩, none), 3) :=
  get_host_failover.1 doReqScenario apiHosts 2 ⟨200, 3⟩ (by decide)
    (by decide) rfl (by decide)

/-- An oracle describing a context that is cancelled before the first
attempt: every Do call fails with the context cancellation error. -/
def doReqCanceledCtx : Nat → DoResult := fun _ => .fail .ctxCanceled

/-- Two of the production hosts, for the cancellation counterexample. -/
def twoHosts : List String := ["api.binance.com", "api1.binance.com"]

/-- C3 counterexample: with the context cancelled from the start and two
configured hosts, the loop performs 2 attempts, not 1: the code has no
early exit on a context cancellation error and keeps iterating the
remaining hosts, contradicting the claim that no further host is
attempted. -/
theorem get_cancel_counterexample :
    clientGet doReqCanceledCtx twoHosts = ((none, some .ctxCanceled), 2) ∧
    (2 : Nat) ≠ 1 := by
  exact ⟨rfl, by decide⟩

/-- C3 amended: when the context is cancelled from attempt k onward (all
later Do calls return the cancellation error), the loop still iterates
every remaining host, each attempt failing with the cancellation error,
and after the last host the cancellation error is surfaced to the
caller; the attempt count is the full host list length, not k + 1. -/
theorem get_cancel_iterates_all_hosts
    (doReq : Nat → DoResult) (hosts : List String) (k : Nat)
    (hk : k < hosts.length)
    (hpre : ∀ j < k, (doReq j).isBreak = false)
    (hcancel : ∀ j, k ≤ j → doReq j = .fail .ctxCanceled) :
    clientGet doReq hosts = ((none, some .ctxCanceled), hosts.length) := by
  have hall : ∀ j < hosts.length, (doReq j).isBreak = false := by
    intro j hj
    rcases Nat.lt_or_ge j k with hjk | hjk
    · exact hpre j hjk
    · rw [hcancel j hjk]; rfl
  have hres := tryRequestFrom_all_advance doReq hosts 0 (none, none)
    (by intro j hj; simpa using hall j hj)
  cases hosts with
  | nil => exact absurd hk (by simp)
  | cons h rest =>
    have hlast : doReq rest.length = .fail .ctxCanceled := by
      apply hcancel
      simp only [List.length_cons] at hk
      omega
    simpa [clientGet, tryRequest, hlast, DoResult.toPair] using hres

/-- Witness for C3 amended: cancellation before the first of two hosts
still yields two attempts and surfaces the cancellation error. -/
theorem get_cancel_iterates_all_hosts_witness :
    clientGet doReqCanceledCtx twoHosts = ((none, some .ctxCanceled), 2) :=
  get_cancel_iterates_all_hosts doReqCanceledCtx twoHosts 0 (by decide)
    (by intro j hj; exact absurd hj (Nat.not_lt_zero j))
    (fun _ _ => rfl)

/-! ## Binance market data REST layer (internal/driver/binance/market.go) -/

/-- Value of a list of decimal digit characters. -/
def digitsToNat (ds : List Char) : Nat :=
  ds.foldl (fun a d => a * 10 + (d.toNat - 48)) 0

/-- Go strconv.Atoi on the character list of the input: optional sign,
then at least one decimal digit and nothing else; values outside the
signed 64-bit range are a range error.  none models a non-nil error. -/
def atoiChars : List Char → Option Int
  | [] => none
  | c :: rest =>
    let signed := if c = '-' then (true, rest)
      else if c = '+' then (false, rest)
      else (false, c :: rest)
    match signed with
    | (neg, ds) =>
      if ds.isEmpty then none
      else if ds.all (fun d => decide ('0' ≤ d) && decide (d ≤ '9')) then
        let v : Int := (digitsToNat ds : Nat)
        if neg then (if v ≤ 2 ^ 63 then some (-v) else none)
        else (if v ≤ 2 ^ 63 - 1 then some v else none)
      else none

/-- Go strconv.Atoi (with the 64-bit int of the production platform). -/
def atoi (s : String) : Option Int :=
  atoiChars s.toList

/-- Signed 64-bit wrap-around of an exact integer, the semantics of Go
int64 multiplication such as time.Duration(i) * time.Second. -/
def wrap64 (x : Int) : Int :=
  (x + 2 ^ 63) % 2 ^ 64 - 2 ^ 63

/-- One nanosecond is the unit of time.Duration; time.Second. -/
def nanosPerSecond : Int := 1000000000

/-- The slice of the HTTP response that MarketData.GetJSON inspects. -/
structure BResponse where
  statusCode : Nat
  status : String
  retryAfter : String
  hasBody : Bool
deriving DecidableEq, Repr

/-- Outcome of the m.Get call inside GetJSON. -/
inductive GetOutcome where
  | ok : BResponse → GetOutcome
  | fail : NetErr → GetOutcome
deriving DecidableEq, Repr

/-- Result of a MarketData.GetJSON call. -/
inductive GetJSONResult where
  | decoded : GetJSONResult
  | decodeFailed : GetJSONResult
  | encodeFailed : GetJSONResult
  | getFailed : NetErr → GetJSONResult
  | retryAfterFailed : String → GetJSONResult
  | backOff : Nat → Int → GetJSONResult
  | reqFailed : Nat → String → GetJSONResult
deriving DecidableEq, Repr

/-- Whether the IPBackOff wait group still blocks at time t: some armed
timer has not fired yet. -/
def gateBlockedAt (gate : List Int) (t : Int) : Bool :=
  gate.any (fun d => t < d)

/-- MarketData.GetJSON.  The global IPBackOff wait group is modelled as
the list gate of absolute fire times (in nanoseconds) of the timers
armed by previous calls; the IPBackOff.Wait() at the top of the function
has returned, so the body runs with the gate as given.  now is the
current time, encodeOk the outcome of encodeFormData, getRes the outcome
of m.Get, decodeOk the outcome of the json decoder on a 200 body.
Returns the gate after the call together with the call result. -/
def GetJSON (gate : List Int) (now : Int) (encodeOk : Bool)
    (getRes : GetOutcome) (decodeOk : Bool) : List Int × GetJSONResult :=
  if !encodeOk then (gate, .encodeFailed)
  else
    match getRes with
    | .fail e => (gate, .getFailed e)
    | .ok resp =>
      if resp.statusCode = 200 && resp.hasBody then
        (gate, if decodeOk then .decoded else .decodeFailed)
      else if resp.statusCode = 429 || resp.statusCode = 418 then
        match atoi resp.retryAfter with
        | none => (gate, .retryAfterFailed resp.retryAfter)
        | some i =>
          let dt := wrap64 (i * nanosPerSecond)
          (gate ++ [now + dt], .backOff resp.statusCode dt)
      else (gate, .reqFailed resp.statusCode resp.status)

theorem wrap64_eq_self {x : Int} (h1 : -(2 ^ 63) ≤ x) (h2 : x ≤ 2 ^ 63 - 1) :
    wrap64 x = x := by
  unfold wrap64
  have hlo : (0 : Int) ≤ x + 2 ^ 63 := by omega
  have hhi : x + 2 ^ 63 < 2 ^ 64 := by omega
  rw [Int.emod_eq_of_lt hlo hhi]
  omega

/-- A 429 response whose Retry-After header holds an integer so large
that converting it to nanoseconds overflows the signed 64-bit range of
time.Duration. -/
def hugeRetryResp : BResponse :=
  ⟨429, "429 Too Many Requests", "9223372037", true⟩

/-- C2 counterexample: the Retry-After header 9223372037 parses as the
integer n = 9223372037, yet GetJSON does not return a BackOffError whose
Duration is n seconds: the multiplication n * time.Second wraps around
int64 and the stored duration (and armed deadline) is the wrapped
negative value instead. -/
theorem getJSON_backoff_duration_counterexample :
    atoi hugeRetryResp.retryAfter = some 9223372037 ∧
    (GetJSON [] 0 true (.ok hugeRetryResp) true).2 ≠
      .backOff 429 (9223372037 * nanosPerSecond) ∧
    (GetJSON [] 0 true (.ok hugeRetryResp) true).2 =
      .backOff 429 (9223372037 * nanosPerSecond - 2 ^ 64) := by
  refine ⟨by decide, by decide, by decide⟩

/-- C2 amended: for every response with status 429 or 418 whose
Retry-After header parses as an integer n such that n seconds fits the
signed 64-bit nanosecond range of time.Duration, GetJSON arms the shared
back-off gate with one timer firing n seconds from now and returns a
BackOffError carrying the response status and the duration n seconds,
instead of a RequestError or success; for larger n the armed duration
wraps around 64-bit nanoseconds (see the counterexample). -/
theorem getJSON_backoff_arms_gate
    (gate : List Int) (now : Int) (resp : BResponse) (decodeOk : Bool)
    (n : Int)
    (hst : resp.statusCode = 429 ∨ resp.statusCode = 418)
    (hparse : atoi resp.retryAfter = some n)
    (hlo : -(2 ^ 63) ≤ n * nanosPerSecond)
    (hhi : n * nanosPerSecond ≤ 2 ^ 63 - 1) :
    GetJSON gate now true (.ok resp) decodeOk =
      (gate ++ [now + n * nanosPerSecond],
       .backOff resp.statusCode (n * nanosPerSecond)) := by
  have hnot200 : (resp.statusCode = 200 && resp.hasBody) = false := by
    rcases hst with h | h <;> simp [h]
  have hretry : (resp.statusCode = 429 || resp.statusCode = 418) = true := by
    rcases hst with h | h <;> simp [h]
  simp only [GetJSON, Bool.not_true, hnot200, hretry, hparse,
    Bool.false_eq_true, if_false, if_true]
  rw [wrap64_eq_self hlo hhi]

/-- Witness for C2 amended: a 429 response with Retry-After 2 arms one
timer two seconds from now and returns BackOffError{429, 2s}. -/
theorem getJSON_backoff_arms_gate_witness :
    GetJSON [] 0 true (.ok ⟨429, "429 Too Many Requests", "2", true⟩) true =
      ([2 * nanosPerSecond], .backOff 429 (2 * nanosPerSecond)) := by
  have h := getJSON_backoff_arms_gate [] 0
    ⟨429, "429 Too Many Requests", "2", true⟩ true 2
    (Or.inl rfl) (by decide) (by decide) (by decide)
  simpa using h

/-- C10: for every response with status 429 or 418 whose Retry-After
header does not parse as an integer, GetJSON returns the header-parse
error (not a BackOffError) and leaves the back-off gate exactly as it
was, so a moment at which the gate did not block still does not block
after the call. -/
theorem getJSON_retry_after_parse_failure
    (gate : List Int) (now : Int) (resp : BResponse) (decodeOk : Bool)
    (hst : resp.statusCode = 429 ∨ resp.statusCode = 418)
    (hparse : atoi resp.retryAfter = none) :
    GetJSON gate now true (.ok resp) decodeOk =
      (gate, .retryAfterFailed resp.retryAfter) ∧
    (∀ t : Int,
      gateBlockedAt (GetJSON gate now true (.ok resp) decodeOk).1 t =
        gateBlockedAt gate t) := by
  have hnot200 : (resp.statusCode = 200 && resp.hasBody) = false := by
    rcases hst with h | h <;> simp [h]
  have hretry : (resp.statusCode = 429 || resp.statusCode = 418) = true := by
    rcases hst with h | h <;> simp [h]
  have hmain : GetJSON gate now true (.ok resp) decodeOk =
      (gate, .retryAfterFailed resp.retryAfter) := by
    simp only [GetJSON, Bool.not_true, hnot200, hretry, hparse,
      Bool.false_eq_true, if_false, if_true]
  exact ⟨hmain, fun t => by rw [hmain]⟩

/-- Witness for C10: an empty Retry-After header on a 429 response is a
parse error; the gate is untouched. -/
theorem getJSON_retry_after_parse_failure_witness :
    GetJSON [5] 0 true (.ok ⟨429, "429 Too Many Requests", "", true⟩) true =
      ([5], .retryAfterFailed "") :=
  (getJSON_retry_after_parse_failure [5] 0
    ⟨429, "429 Too Many Requests", "", true⟩ true (Or.inl rfl) (by decide)).1

/-! ## Binance combined stream transport: correlator and outbound queue
(internal/driver/binance/stream.go and the handler-based revision).
Both revisions share addReponseChan, addQueue, popResponseChan,
sendErrResponse, close and sendQueue verbatim; the mutex qmtx serializes
every access to qid and qrc, so the concurrent executions of these
operations are modelled as the set of their serializations: an arbitrary
sequence of atomic events. -/

/-- Modulus of the Go uint counter qid on the production platform. -/
def uintMod : Nat := 2 ^ 64

/-- Kind of a value written to a reply slot.  The drain in close()
forwards whatever error conn.Close() returned: none models a nil error,
in which case the waiting caller receives a wsMethodResponse whose Error
field is nil — indistinguishable from success. -/
inductive Delivery where
  | result : Delivery
  | methodErr : Delivery
  | connClose : Option String → Delivery
  | sendFailErr : Delivery
deriving DecidableEq, Repr

/-- State of one Stream instance as far as the correlator, the id
counter and the outbound queue are concerned.  Reply slots are named by
a serial number (the order of their creation); delivered is the log of
values written to reply slots, identified by slot serial. -/
structure StreamSt where
  qid : Nat
  qrc : List (Nat × Nat)
  queue : List Nat
  nextSerial : Nat
  delivered : List (Nat × Delivery)
  ctxDone : Bool
  closed : Bool
deriving DecidableEq, Repr

/-- A freshly dialled stream: zero qid, nil qrc map, empty queue. -/
def initStream : StreamSt :=
  ⟨0, [], [], 0, [], false, false⟩

/-- Lookup in the qrc map (keys are unique, as in the Go map). -/
def qrcLookup : List (Nat × Nat) → Nat → Option Nat
  | [], _ => none
  | p :: rest, id => if p.1 = id then some p.2 else qrcLookup rest id

/-- Deletion from the qrc map. -/
def qrcErase (l : List (Nat × Nat)) (id : Nat) : List (Nat × Nat) :=
  l.filter (fun p => p.1 != id)

/-- Go map assignment: any previous binding of the key is replaced. -/
def qrcInsert (l : List (Nat × Nat)) (id serial : Nat) : List (Nat × Nat) :=
  (id, serial) :: qrcErase l id

/-- Stream.popResponseChan: under the mutex, fetch the reply slot for id
and remove it from the map when present. -/
def StreamSt.popResponseChan (s : StreamSt) (id : Nat) :
    StreamSt × Option Nat :=
  match qrcLookup s.qrc id with
  | some serial => ({ s with qrc := qrcErase s.qrc id }, some serial)
  | none => (s, none)

/-- Pop the slot for id and, when present, write one value of kind k to
it.  Stream.sendErrResponse is this with an error kind, and the
method-result branch of dispatch is this with the result kind. -/
def StreamSt.deliver (s : StreamSt) (id : Nat) (k : Delivery) : StreamSt :=
  match s.popResponseChan id with
  | (s1, some serial) => { s1 with delivered := s1.delivered ++ [(serial, k)] }
  | (_, none) => s

/-- Stream.addReponseChan (spelling as in the source): under the mutex,
increment the uint id counter, register the slot under the new id and
return that id. -/
def StreamSt.addReponseChan (s : StreamSt) (serial : Nat) : StreamSt × Nat :=
  let id := (s.qid + 1) % uintMod
  ({ s with qid := id, qrc := qrcInsert s.qrc id serial }, id)

/-- Result of Stream.addQueue as observed by the caller. -/
inductive AddQueueRes where
  | immediateClosedErr : AddQueueRes
  | queued : Nat → Nat → AddQueueRes
deriving DecidableEq, Repr

/-- Stream.addQueue: allocate a capacity-1 reply slot; if the shared
context is already done, deliver websocket.ErrCloseSent on the slot at
once and return it, touching neither the queue nor the correlator;
otherwise register the slot under a fresh id and append the message to
the outbound queue. -/
def StreamSt.addQueue (s : StreamSt) : StreamSt × AddQueueRes :=
  if s.ctxDone then (s, .immediateClosedErr)
  else
    let serial := s.nextSerial
    let s1 := { s with nextSerial := serial + 1 }
    match s1.addReponseChan serial with
    | (s2, id) => ({ s2 with queue := s2.queue ++ [id] }, .queued id serial)

/-- Stream.close: cancel the shared context, close the outbound queue
channel, close the physical connection (e is the error conn.Close()
returned: none when it is nil, which is the normal teardown case), then
drain the queue delivering that very error value to every still-queued
message's slot via sendErrResponse, and finish (the handler Done calls
are modelled with the subscription registry below). -/
def StreamSt.close (s : StreamSt) (e : Option String) : StreamSt :=
  let s1 := { s with ctxDone := true }
  let s2 := s1.queue.foldl (fun st id => st.deliver id (.connClose e)) s1
  { s2 with queue := [], closed := true }

/-- Atomic events of one Stream instance: a caller enqueues a method
call; the sender loop writes the head message (successfully, or failing
and then closing with conn.Close() returning e); the listener dispatches
a method result or a method error for an id; the shared context is
cancelled and the sender, woken through the ctx.Done arm of its select,
runs close; or, cancel having raced the select, the sender is woken
through the queue arm instead, dequeues one message, discards it with no
delivery when it notices ctx.Err() is non-nil, and only then runs
close. -/
inductive StreamEv where
  | enqueue : StreamEv
  | sendOk : StreamEv
  | sendFail : Option String → StreamEv
  | recvResult : Nat → StreamEv
  | recvMethodErr : Nat → StreamEv
  | cancel : Option String → StreamEv
  | cancelDrop : Option String → StreamEv
deriving DecidableEq, Repr

/-- One event of the serialized execution, mirroring the corresponding
Go code path. -/
def StreamSt.step (s : StreamSt) : StreamEv → StreamSt
  | .enqueue => (s.addQueue).1
  | .sendOk =>
    if s.closed || s.ctxDone then s
    else
      match s.queue with
      | [] => s
      | _ :: rest => { s with queue := rest }
  | .sendFail e =>
    if s.closed || s.ctxDone then s
    else
      match s.queue with
      | [] => s
      | id :: rest =>
        (StreamSt.deliver { s with queue := rest } id .sendFailErr).close e
  | .recvResult id => if s.closed then s else s.deliver id .result
  | .recvMethodErr id => if s.closed then s else s.deliver id .methodErr
  | .cancel e => if s.closed then s else s.close e
  | .cancelDrop e =>
    if s.closed then s
    else
      match s.queue with
      | [] => s.close e
      | _ :: rest => StreamSt.close { s with queue := rest } e

/-- Execution of a serialized event sequence from a fresh stream. -/
def runStream (evs : List StreamEv) : StreamSt :=
  evs.foldl StreamSt.step initStream

/-- C5: an enqueue attempted when the transport's shared context is
already done delivers the closed-connection error websocket.ErrCloseSent
on the returned reply slot at once, places no message on the outbound
queue, registers nothing with the correlator and leaves the whole state
untouched, so no network interaction can result from it. -/
theorem addQueue_on_done_context (s : StreamSt) (h : s.ctxDone = true) :
    s.addQueue = (s, .immediateClosedErr) ∧
    (s.addQueue).1.queue = s.queue ∧
    (s.addQueue).1.qrc = s.qrc := by
  refine ⟨?_, ?_, ?_⟩ <;> simp [StreamSt.addQueue, h]

/-- Witness for C5 at a concrete cancelled stream with a non-empty
queue and one registered slot. -/
theorem addQueue_on_done_context_witness :
    StreamSt.addQueue ⟨7, [(1, 0)], [2], 3, [], true, false⟩ =
      (⟨7, [(1, 0)], [2], 3, [], true, false⟩, .immediateClosedErr) :=
  (addQueue_on_done_context ⟨7, [(1, 0)], [2], 3, [], true, false⟩ rfl).1

/-- Ids handed out by n successive addReponseChan calls on a stream,
serialized by the qmtx mutex. -/
def idsFrom : StreamSt → Nat → List Nat
  | _, 0 => []
  | s, n + 1 =>
    match s.addReponseChan s.nextSerial with
    | (s1, id) => id :: idsFrom { s1 with nextSerial := s1.nextSerial + 1 } n

/-- Ids handed out across the lifetime of a fresh stream instance. -/
def streamIds (n : Nat) : List Nat :=
  idsFrom initStream n

theorem uintMod_eq : uintMod = 18446744073709551616 := by
  norm_num [uintMod]

theorem idsFrom_eq (n : Nat) : ∀ s : StreamSt,
    idsFrom s n = (List.range n).map (fun k => (s.qid + k + 1) % uintMod) := by
  induction n with
  | zero => intro s; rfl
  | succ m ih =>
    intro s
    rw [List.range_succ_eq_map m]
    simp only [idsFrom, StreamSt.addReponseChan, List.map_cons, List.map_map, ih]
    refine congrArg₂ _ rfl (List.map_congr_left ?_)
    intro k _
    simp only [Function.comp, uintMod_eq, Nat.succ_eq_add_one]
    omega

theorem streamIds_eq (n : Nat) :
    streamIds n = (List.range n).map (fun k => (k + 1) % uintMod) := by
  rw [streamIds, idsFrom_eq]
  exact List.map_congr_left fun k _ => by simp [initStream]

/-- C4 counterexample: the id counter is a Go uint and wraps modulo
2^64, so a lifetime of 2^64 + 1 allocations hands out the id 1 twice
(first and last call) and the ids are neither pairwise distinct nor
strictly increasing for the whole lifetime of the instance. -/
theorem correlation_ids_counterexample :
    ¬ ((streamIds (uintMod + 1)).Pairwise (· < ·) ∧
       (streamIds (uintMod + 1)).Nodup ∧
       (streamIds (uintMod + 1)).head? = some 1) := by
  rintro ⟨-, hnd, -⟩
  rw [streamIds_eq] at hnd
  have h0 : (0 : Nat) ∈ List.range (uintMod + 1) := by
    simp [List.mem_range]
  have hM : uintMod ∈ List.range (uintMod + 1) := by
    simp [List.mem_range]
  have heq : (0 + 1) % uintMod = (uintMod + 1) % uintMod := by
    simp only [uintMod_eq]
  have := List.inj_on_of_nodup_map hnd h0 hM heq
  rw [uintMod_eq] at this
  omega

/-- C4 amended: as long as fewer than 2^64 ids have been issued during
the lifetime of the instance (which no real execution can exceed), the
correlation ids handed out by the mutex-serialized addReponseChan calls
are exactly 1, 2, ..., n: strictly increasing, pairwise distinct, and
starting at 1. -/
theorem correlation_ids_monotone (n : Nat) (hn : n ≤ uintMod - 1) :
    streamIds n = (List.range n).map (· + 1) ∧
    (streamIds n).Pairwise (· < ·) ∧
    (streamIds n).Nodup ∧
    (0 < n → (streamIds n).head? = some 1) := by
  have hids : streamIds n = (List.range n).map (· + 1) := by
    rw [streamIds_eq]
    refine List.map_congr_left ?_
    intro k hk
    rw [List.mem_range] at hk
    have : k + 1 < uintMod := by
      rw [uintMod_eq] at hn ⊢
      omega
    exact Nat.mod_eq_of_lt this
  have hpw : (streamIds n).Pairwise (· < ·) := by
    rw [hids]
    exact (List.pairwise_lt_range n).map _ (by intro a b hab; omega)
  refine ⟨hids, hpw, hpw.imp Nat.ne_of_lt, ?_⟩
  intro hpos
  rw [hids]
  cases n with
  | zero => exact absurd hpos (by omega)
  | succ m => rw [List.range_succ_eq_map m]; rfl

/-- Witness for C4 amended: the first three ids are 1, 2, 3. -/
theorem correlation_ids_monotone_witness :
    streamIds 3 = [1, 2, 3] ∧ (streamIds 3).Nodup :=
  ⟨by simpa using (correlation_ids_monotone 3 (by norm_num [uintMod])).1,
   (correlation_ids_monotone 3 (by norm_num [uintMod])).2.2.1⟩

theorem qrcLookup_mem : ∀ (l : List (Nat × Nat)) (id serial : Nat),
    qrcLookup l id = some serial → (id, serial) ∈ l := by
  intro l
  induction l with
  | nil => intro id serial h; exact absurd h (by simp [qrcLookup])
  | cons p rest ih =>
    intro id serial h
    rcases p with ⟨a, b⟩
    have hred : qrcLookup ((a, b) :: rest) id =
        if a = id then some b else qrcLookup rest id := rfl
    rw [hred] at h
    by_cases hp : a = id
    · rw [if_pos hp] at h
      injection h with h2
      rw [← hp, ← h2]
      exact List.mem_cons_self _ _
    · rw [if_neg hp] at h
      exact List.mem_cons_of_mem _ (ih id serial h)

theorem qrcErase_subset {l : List (Nat × Nat)} {id : Nat} {p : Nat × Nat}
    (h : p ∈ qrcErase l id) : p ∈ l ∧ p.1 ≠ id := by
  rw [qrcErase, List.mem_filter] at h
  exact ⟨h.1, by simpa using h.2⟩

theorem qrcErase_map_sublist (l : List (Nat × Nat)) (id : Nat) :
    ((qrcErase l id).map Prod.snd).Sublist (l.map Prod.snd) :=
  (List.filter_sublist l).map Prod.snd

/-- Invariant tying reply-slot serials, the correlator map and the log
of deliveries together: serials in the map are fresh, pairwise distinct
and not yet delivered to, and no serial ever receives two deliveries. -/
structure StreamInv (s : StreamSt) : Prop where
  deliveredNodup : (s.delivered.map Prod.fst).Nodup
  qrcNodup : (s.qrc.map Prod.snd).Nodup
  qrcFresh : ∀ p ∈ s.qrc, p.2 < s.nextSerial
  deliveredFresh : ∀ p ∈ s.delivered, p.1 < s.nextSerial
  qrcUndelivered : ∀ p ∈ s.qrc, p.2 ∉ s.delivered.map Prod.fst

theorem deliver_eq_of_lookup_some {s : StreamSt} {id serial : Nat}
    (k : Delivery) (hl : qrcLookup s.qrc id = some serial) :
    s.deliver id k =
      { s with qrc := qrcErase s.qrc id,
               delivered := s.delivered ++ [(serial, k)] } := by
  simp [StreamSt.deliver, StreamSt.popResponseChan, hl]

theorem deliver_eq_of_lookup_none {s : StreamSt} {id : Nat} (k : Delivery)
    (hl : qrcLookup s.qrc id = none) : s.deliver id k = s := by
  simp [StreamSt.deliver, StreamSt.popResponseChan, hl]

theorem deliver_inv {s : StreamSt} (h : StreamInv s) (id : Nat)
    (k : Delivery) : StreamInv (s.deliver id k) := by
  cases hl : qrcLookup s.qrc id with
  | none => rw [deliver_eq_of_lookup_none k hl]; exact h
  | some serial =>
    rw [deliver_eq_of_lookup_some k hl]
    have hmem : (id, serial) ∈ s.qrc := qrcLookup_mem s.qrc id serial hl
    refine ⟨?_, ?_, ?_, ?_, ?_⟩
    · show ((s.delivered ++ [(serial, k)]).map Prod.fst).Nodup
      rw [List.map_append, List.nodup_append]
      refine ⟨h.deliveredNodup, by simp, ?_⟩
      simp only [List.map_cons, List.map_nil, List.disjoint_singleton]
      exact h.qrcUndelivered _ hmem
    · exact (qrcErase_map_sublist s.qrc id).nodup h.qrcNodup
    · intro p hp
      exact h.qrcFresh p (qrcErase_subset hp).1
    · intro p hp
      have hp2 : p ∈ s.delivered ++ [(serial, k)] := hp
      rcases List.mem_append.1 hp2 with hp1 | hp1
      · exact h.deliveredFresh p hp1
      · have hps : p = (serial, k) := by simpa using hp1
        rw [hps]
        exact h.qrcFresh _ hmem
    · intro p hp
      obtain ⟨hpm, hpne⟩ := qrcErase_subset hp
      show p.2 ∉ (s.delivered ++ [(serial, k)]).map Prod.fst
      rw [List.map_append]
      simp only [List.map_cons, List.map_nil, List.mem_append,
        List.mem_singleton]
      rintro (hin | hser)
      · exact h.qrcUndelivered p hpm hin
      · have hpeq : p = (id, serial) :=
          List.inj_on_of_nodup_map h.qrcNodup hpm hmem hser
        exact hpne (by rw [hpeq])

theorem ctxDone_inv {s : StreamSt} (h : StreamInv s) :
    StreamInv { s with ctxDone := true } :=
  ⟨h.deliveredNodup, h.qrcNodup, h.qrcFresh, h.deliveredFresh,
   h.qrcUndelivered⟩

theorem queue_set_inv {s : StreamSt} (h : StreamInv s) (q : List Nat) :
    StreamInv { s with queue := q } :=
  ⟨h.deliveredNodup, h.qrcNodup, h.qrcFresh, h.deliveredFresh,
   h.qrcUndelivered⟩

theorem foldl_deliver_inv (k : Delivery) (l : List Nat) :
    ∀ {s : StreamSt}, StreamInv s →
    StreamInv (l.foldl (fun st id => st.deliver id k) s) := by
  induction l with
  | nil => intro s h; exact h
  | cons id rest ih =>
    intro s h
    exact ih (deliver_inv h id k)

theorem close_inv {s : StreamSt} (h : StreamInv s) (e : Option String) :
    StreamInv (s.close e) := by
  unfold StreamSt.close
  have h2 := foldl_deliver_inv (.connClose e) s.queue (ctxDone_inv h)
  exact ⟨h2.deliveredNodup, h2.qrcNodup, h2.qrcFresh, h2.deliveredFresh,
    h2.qrcUndelivered⟩

theorem addQueue_eq_of_done {s : StreamSt} (hd : s.ctxDone = true) :
    s.addQueue = (s, .immediateClosedErr) := by
  simp [StreamSt.addQueue, hd]

theorem addQueue_eq_of_not_done {s : StreamSt} (hd : s.ctxDone = false) :
    s.addQueue =
      ({ s with qid := (s.qid + 1) % uintMod,
                qrc := qrcInsert s.qrc ((s.qid + 1) % uintMod) s.nextSerial,
                queue := s.queue ++ [(s.qid + 1) % uintMod],
                nextSerial := s.nextSerial + 1 },
       .queued ((s.qid + 1) % uintMod) s.nextSerial) := by
  simp [StreamSt.addQueue, hd, StreamSt.addReponseChan]

theorem addQueue_inv {s : StreamSt} (h : StreamInv s) :
    StreamInv (s.addQueue).1 := by
  cases hd : s.ctxDone with
  | true =>
    rw [addQueue_eq_of_done hd]
    exact h
  | false =>
    rw [addQueue_eq_of_not_done hd]
    refine ⟨h.deliveredNodup, ?_, ?_, ?_, ?_⟩
    · show ((qrcInsert s.qrc ((s.qid + 1) % uintMod) s.nextSerial).map
        Prod.snd).Nodup
      simp only [qrcInsert, List.map_cons, List.nodup_cons]
      constructor
      · intro hin
        rcases List.mem_map.1 hin with ⟨p, hp, hps⟩
        have := h.qrcFresh p (qrcErase_subset hp).1
        omega
      · exact (qrcErase_map_sublist s.qrc _).nodup h.qrcNodup
    · intro p hp
      have hp2 : p ∈ (((s.qid + 1) % uintMod, s.nextSerial) ::
          qrcErase s.qrc ((s.qid + 1) % uintMod)) := hp
      rcases List.mem_cons.1 hp2 with hp1 | hp1
      · rw [hp1]
        show s.nextSerial < s.nextSerial + 1
        omega
      · have := h.qrcFresh p (qrcErase_subset hp1).1
        show p.2 < s.nextSerial + 1
        omega
    · intro p hp
      have := h.deliveredFresh p hp
      show p.1 < s.nextSerial + 1
      omega
    · intro p hp
      have hp2 : p ∈ (((s.qid + 1) % uintMod, s.nextSerial) ::
          qrcErase s.qrc ((s.qid + 1) % uintMod)) := hp
      rcases List.mem_cons.1 hp2 with hp1 | hp1
      · rw [hp1]
        intro hin
        rcases List.mem_map.1 hin with ⟨q, hq, hqs⟩
        have := h.deliveredFresh q hq
        omega
      · exact h.qrcUndelivered p (qrcErase_subset hp1).1

theorem step_inv {s : StreamSt} (h : StreamInv s) (ev : StreamEv) :
    StreamInv (s.step ev) := by
  cases ev with
  | enqueue => exact addQueue_inv h
  | sendOk =>
    simp only [StreamSt.step]
    split
    · exact h
    · split
      · exact h
      · exact queue_set_inv h _
  | sendFail e =>
    simp only [StreamSt.step]
    split
    · exact h
    · split
      · exact h
      · exact close_inv (deliver_inv (queue_set_inv h _) _ _) e
  | recvResult id =>
    simp only [StreamSt.step]
    split
    · exact h
    · exact deliver_inv h id .result
  | recvMethodErr id =>
    simp only [StreamSt.step]
    split
    · exact h
    · exact deliver_inv h id .methodErr
  | cancel e =>
    simp only [StreamSt.step]
    split
    · exact h
    · exact close_inv h e
  | cancelDrop e =>
    simp only [StreamSt.step]
    split
    · exact h
    · split
      · exact close_inv h e
      · exact close_inv (queue_set_inv h _) e

theorem initStream_inv : StreamInv initStream := by
  refine ⟨?_, ?_, ?_, ?_, ?_⟩ <;> simp [initStream]

theorem runStream_inv (evs : List StreamEv) : StreamInv (runStream evs) := by
  rw [runStream]
  induction evs using List.reverseRecOn with
  | nil => exact initStream_inv
  | append_singleton rest ev ih =>
    rw [List.foldl_append]
    exact step_inv ih ev

/-- C6 counterexample, refuting the claim as stated on three concrete
runs.  First run: a method call is enqueued, the sender writes it to
the wire, then the transport is cancelled: the transport closes with
slot serial 0 still registered and an empty delivery log — zero
deliveries, not exactly one.  Second run: a method call is still queued
when the transport is cancelled and conn.Close() returns nil: the drain
delivers a wsMethodResponse whose Error field is that nil — a
success-shaped value, not a closed-connection error.  Third run: a
method call is still queued when the transport is cancelled, but the
sender is woken through the queue arm of its select, dequeues the
message and discards it on seeing ctx.Err() non-nil: the slot stays
registered and receives no delivery at all, although its message was
queued when the shutdown began. -/
theorem pending_request_zero_deliveries :
    ((runStream [.enqueue, .sendOk, .cancel none]).closed = true ∧
     (runStream [.enqueue, .sendOk, .cancel none]).qrc = [(1, 0)] ∧
     (runStream [.enqueue, .sendOk, .cancel none]).delivered = []) ∧
    ((runStream [.enqueue, .cancel none]).delivered =
      [(0, .connClose none)]) ∧
    ((runStream [.enqueue, .cancelDrop none]).closed = true ∧
     (runStream [.enqueue, .cancelDrop none]).qrc = [(1, 0)] ∧
     (runStream [.enqueue, .cancelDrop none]).delivered = []) := by
  decide

/-- C6 amended: over every serialized execution, each reply slot
receives at most one delivery (the slot is removed from the correlator
atomically with the delivery, so a second value can never reach it);
and when the transport closes with outbound messages still queued and
the sender is woken through the ctx.Done arm of its select — three
method calls enqueued, then cancellation — the drain pops every
still-queued message's slot and delivers the error value that
conn.Close() returned, whatever it is: nil in normal teardown, so the
waiting callers observe a success-shaped response rather than a
closed-connection error.  The claimed exactly-one delivery fails for a
request already written to the wire but unanswered at close time, and
a still-queued message receives nothing when the sender dequeues it
after cancellation through the queue arm of its select (see the
counterexample). -/
theorem slot_at_most_one_delivery :
    (∀ evs : List StreamEv,
      ((runStream evs).delivered.map Prod.fst).Nodup) ∧
    (∀ e : Option String,
      (runStream [.enqueue, .enqueue, .enqueue, .cancel e]).delivered =
        [(0, .connClose e), (1, .connClose e), (2, .connClose e)] ∧
      (runStream [.enqueue, .enqueue, .enqueue, .cancel e]).qrc = []) := by
  exact ⟨fun evs => (runStream_inv evs).deliveredNodup,
    fun e => ⟨rfl, rfl⟩⟩

/-! ## Subscription registry and Subscribe / Unsubscribe.  The repository
holds two revisions of Stream.Subscribe: the handler-based one
(driver.SyncMap of JSONHandler, with rollback of the registration when
the SUBSCRIBE method call fails) and the channel-based one (stream.go,
where the fresh channel plays the handler role and no rollback is
performed).  Both are embedded.  Handlers are named by opaque tokens. -/

/-- Lookup in a string-keyed sync map (Load). -/
def assocLookup {α : Type} : List (String × α) → String → Option α
  | [], _ => none
  | p :: rest, k => if p.1 = k then some p.2 else assocLookup rest k

/-- Deletion from a string-keyed sync map (Delete). -/
def assocErase {α : Type} (l : List (String × α)) (k : String) :
    List (String × α) :=
  l.filter (fun p => p.1 != k)

/-- sync.Map LoadOrStore: an atomic check-and-register; loaded = true
means the key was present and the map is untouched. -/
def assocLoadOrStore {α : Type} (l : List (String × α)) (k : String)
    (v : α) : List (String × α) × Bool :=
  match assocLookup l k with
  | some _ => (l, true)
  | none => ((k, v) :: l, false)

/-- sync.Map LoadAndDelete: atomically remove and return the binding. -/
def assocLoadAndDelete {α : Type} (l : List (String × α)) (k : String) :
    List (String × α) × Option α :=
  match assocLookup l k with
  | some v => (assocErase l k, some v)
  | none => (l, none)

theorem assocLookup_mem {α : Type} :
    ∀ (l : List (String × α)) (k : String) (v : α),
    assocLookup l k = some v → (k, v) ∈ l := by
  intro l
  induction l with
  | nil => intro k v h; exact absurd h (by simp [assocLookup])
  | cons p rest ih =>
    intro k v h
    rcases p with ⟨a, b⟩
    have hred : assocLookup ((a, b) :: rest) k =
        if a = k then some b else assocLookup rest k := rfl
    rw [hred] at h
    by_cases hp : a = k
    · rw [if_pos hp] at h
      injection h with h2
      rw [← hp, ← h2]
      exact List.mem_cons_self _ _
    · rw [if_neg hp] at h
      exact List.mem_cons_of_mem _ (ih k v h)

theorem assocErase_of_lookup_none {α : Type} :
    ∀ (l : List (String × α)) (k : String),
    assocLookup l k = none → assocErase l k = l := by
  intro l
  induction l with
  | nil => intro k _; rfl
  | cons p rest ih =>
    intro k h
    rcases p with ⟨a, b⟩
    have hred : assocLookup ((a, b) :: rest) k =
        if a = k then some b else assocLookup rest k := rfl
    rw [hred] at h
    by_cases hp : a = k
    · rw [if_pos hp] at h; exact absurd h (by simp)
    · rw [if_neg hp] at h
      have : assocErase ((a, b) :: rest) k = (a, b) :: assocErase rest k := by
        simp [assocErase, List.filter_cons, hp]
      rw [this, ih k h]

/-- Errors surfaced by Subscribe and Unsubscribe. -/
inductive SubError where
  | alreadySubscribed : SubError
  | methodCallFailed : String → SubError
deriving DecidableEq, Repr

/-- Observable outcome of one Subscribe call of the handler-based
revision: the final registry, the returned error, and the registry
content at the moment the SUBSCRIBE method call was handed to the
correlator (none when no method call was issued). -/
structure SubscribeOut where
  handlers : List (String × Nat)
  err : Option SubError
  callIssued : Option (List (String × Nat))
deriving DecidableEq, Repr

/-- Stream.Subscribe (handler-based revision): atomically check and
register via LoadOrStore; fail with ErrStreamSubscribed when loaded;
otherwise issue the SUBSCRIBE method call (callResp is the error
component of the reply), and on a method-call error delete the fresh
registration again and surface the wrapped error. -/
def Subscribe (m : List (String × Nat)) (stream : String) (handler : Nat)
    (callResp : Option String) : SubscribeOut :=
  match assocLoadOrStore m stream handler with
  | (_, true) => ⟨m, some .alreadySubscribed, none⟩
  | (m1, false) =>
    match callResp with
    | some e => ⟨assocErase m1 stream, some (.methodCallFailed e), some m1⟩
    | none => ⟨m1, none, some m1⟩

/-- Stream.Subscribe of the channel-based revision (stream.go): the
freshly created channel c is the registered handler; when the SUBSCRIBE
method call fails the error is returned but the registration is left in
the map (no Delete on this path in that revision). -/
def SubscribeChanVariant (m : List (String × Nat)) (stream : String)
    (c : Nat) (callResp : Option String) :
    List (String × Nat) × Option SubError :=
  match assocLoadOrStore m stream c with
  | (_, true) => (m, some .alreadySubscribed)
  | (m1, false) =>
    match callResp with
    | some e => (m1, some (.methodCallFailed e))
    | none => (m1, none)

/-- C7 counterexample: in the channel-based revision of Subscribe
(stream.go), a Subscribe on a free name whose SUBSCRIBE method call
returns an error surfaces the error but leaves the new registration in
the map: the registry afterwards is not the untouched original empty
registry the rollback would restore. -/
theorem subscribe_rollback_counterexample :
    (SubscribeChanVariant [] "btcusdt@aggTrade" 0 (some "boom")).2 =
      some (.methodCallFailed "boom") ∧
    (SubscribeChanVariant [] "btcusdt@aggTrade" 0 (some "boom")).1 =
      [("btcusdt@aggTrade", 0)] ∧
    [("btcusdt@aggTrade", 0)] ≠ ([] : List (String × Nat)) := by
  refine ⟨by decide, by decide, by decide⟩

/-- C7 amended: the claimed contract holds for the handler-based
revision of Subscribe: a currently registered name fails with
AlreadySubscribed and the registry is untouched (no method call is
issued); a free name is registered before the SUBSCRIBE method call is
issued, and when that call returns an error the registration is rolled
back so the registry is the original again, with the error surfaced.
In the channel-based revision (stream.go) the rollback is missing and
the registration survives the failed call (see the counterexample). -/
theorem subscribe_register_rollback (m : List (String × Nat))
    (stream : String) (handler : Nat) (callResp : Option String) :
    ((∃ h0, assocLookup m stream = some h0) →
      Subscribe m stream handler callResp =
        ⟨m, some .alreadySubscribed, none⟩) ∧
    (assocLookup m stream = none →
      (Subscribe m stream handler callResp).callIssued =
        some ((stream, handler) :: m) ∧
      (∀ e, callResp = some e →
        (Subscribe m stream handler callResp).handlers = m ∧
        (Subscribe m stream handler callResp).err =
          some (.methodCallFailed e)) ∧
      (callResp = none →
        (Subscribe m stream handler callResp).handlers =
          (stream, handler) :: m ∧
        (Subscribe m stream handler callResp).err = none)) := by
  constructor
  · rintro ⟨h0, hl⟩
    simp [Subscribe, assocLoadOrStore, hl]
  · intro hl
    have herase : assocErase ((stream, handler) :: m) stream = m := by
      have hred : assocErase ((stream, handler) :: m) stream =
          assocErase m stream := by
        simp [assocErase, List.filter_cons]
      rw [hred]
      exact assocErase_of_lookup_none m stream hl
    refine ⟨?_, ?_, ?_⟩
    · cases callResp with
      | none => simp [Subscribe, assocLoadOrStore, hl]
      | some e => simp [Subscribe, assocLoadOrStore, hl]
    · intro e he
      rw [he]
      simp [Subscribe, assocLoadOrStore, hl, herase]
    · intro he
      rw [he]
      simp [Subscribe, assocLoadOrStore, hl]

/-- Witness for C7 amended: on a registry holding only "other", a
Subscribe of a fresh name whose method call fails rolls the registry
back to exactly its previous content and surfaces the error. -/
theorem subscribe_register_rollback_witness :
    (Subscribe [("other", 5)] "btcusdt@aggTrade" 7 (some "boom")).handlers =
      [("other", 5)] ∧
    (Subscribe [("other", 5)] "btcusdt@aggTrade" 7 (some "boom")).err =
      some (.methodCallFailed "boom") :=
  ((subscribe_register_rollback [("other", 5)] "btcusdt@aggTrade" 7
    (some "boom")).2 (by decide)).2.1 "boom" rfl

/-- Observable outcome of one Unsubscribe call of the handler-based
revision: the final registry, the returned error, and the handlers
whose Done method was invoked, in invocation order. -/
structure UnsubscribeOut where
  handlers : List (String × Nat)
  err : Option SubError
  doneCalled : List Nat
deriving DecidableEq, Repr

/-- Stream.Unsubscribe (handler-based revision): issue the UNSUBSCRIBE
method call first (callResp is the error component of the reply); on an
error surface it with the registry untouched; on success LoadAndDelete
the registration and, when one was present, call its Done exactly
once. -/
def Unsubscribe (m : List (String × Nat)) (stream : String)
    (callResp : Option String) : UnsubscribeOut :=
  match callResp with
  | some e => ⟨m, some (.methodCallFailed e), []⟩
  | none =>
    match assocLoadAndDelete m stream with
    | (m1, some h) => ⟨m1, none, [h]⟩
    | (m1, none) => ⟨m1, none, []⟩

/-- C8: when the UNSUBSCRIBE method call succeeds, an existing
registration for the name is removed and its handler's Done is called
exactly once; when no registration exists the call returns no error and
calls no Done: an idempotent no-op after the network round trip. -/
theorem unsubscribe_success_contract (m : List (String × Nat))
    (stream : String) :
    (∀ h, assocLookup m stream = some h →
      Unsubscribe m stream none = ⟨assocErase m stream, none, [h]⟩) ∧
    (assocLookup m stream = none →
      Unsubscribe m stream none = ⟨m, none, []⟩) := by
  constructor
  · intro h hl
    simp [Unsubscribe, assocLoadAndDelete, hl]
  · intro hl
    simp [Unsubscribe, assocLoadAndDelete, hl]

/-- Witness for C8: removing a present registration calls its Done once;
a second Unsubscribe for the now-absent name succeeds with no Done. -/
theorem unsubscribe_success_contract_witness :
    Unsubscribe [("btcusdt@aggTrade", 3)] "btcusdt@aggTrade" none =
      ⟨[], none, [3]⟩ ∧
    Unsubscribe [] "btcusdt@aggTrade" none = ⟨[], none, []⟩ := by
  constructor
  · have h := (unsubscribe_success_contract [("btcusdt@aggTrade", 3)]
      "btcusdt@aggTrade").1 3 (by decide)
    simpa using h
  · exact (unsubscribe_success_contract [] "btcusdt@aggTrade").2 (by decide)

/-! ## Inbound dispatch and its panic fault boundary (handler-based
revision of Stream.dispatch, run in its own goroutine per frame). -/

/-- Value carried by a Go panic: either a value implementing the error
interface, or any other value (such as a plain string). -/
inductive PanicVal where
  | errVal : String → PanicVal
  | nonErrVal : String → PanicVal
deriving DecidableEq, Repr

/-- Behaviour of one subscription handler's Event invocation on the next
payload: return normally or panic with the given value. -/
inductive HandlerBehavior where
  | ok : HandlerBehavior
  | panics : PanicVal → HandlerBehavior
deriving DecidableEq, Repr

/-- The fields of a parsed streamMessage that dispatch branches on. -/
structure SMsg where
  hasErr : Bool
  id : Nat
  stream : String
deriving DecidableEq, Repr

/-- Outcome of one dispatch goroutine.  The deferred recover logs and
returns when the recovered value implements error; for any other value
it logs at Panic level, which re-panics inside the deferred function:
the panic escapes the goroutine unrecovered and aborts the whole
process (taking the listener loop with it). -/
inductive DispatchOutcome where
  | normal : DispatchOutcome
  | recovered : String → DispatchOutcome
  | crashed : String → DispatchOutcome
deriving DecidableEq, Repr

/-- The panic raised (if any) by the body of Stream.dispatch: a json
unmarshal failure panics with an error value; otherwise the branches of
dispatch run in source order and only a handler's Event call can panic,
on the push branch (error frames and method results only write to reply
slots). -/
def dispatchPanicValue (parsed : Option SMsg)
    (handlers : List (String × HandlerBehavior)) : Option PanicVal :=
  match parsed with
  | none => some (.errVal "stream.dispatch: unmarshal")
  | some msg =>
    if msg.hasErr then none
    else if msg.id ≠ 0 then none
    else if msg.stream ≠ "" then
      match assocLookup handlers msg.stream with
      | some (.panics v) => some v
      | _ => none
    else none

/-- One run of the dispatch goroutine including its deferred recover. -/
def runDispatch (parsed : Option SMsg)
    (handlers : List (String × HandlerBehavior)) : DispatchOutcome :=
  match dispatchPanicValue parsed handlers with
  | none => .normal
  | some (.errVal m) => .recovered m
  | some (.nonErrVal d) => .crashed d

/-- The listener loop spawning one dispatch per received frame: an
unrecovered panic in any dispatch goroutine aborts the process, so no
later frame is dispatched after a crashed outcome. -/
def listenRun (handlers : List (String × HandlerBehavior)) :
    List (Option SMsg) → List DispatchOutcome
  | [] => []
  | f :: rest =>
    match runDispatch f handlers with
    | .crashed d => [.crashed d]
    | o => o :: listenRun handlers rest

/-- A push frame for the named stream. -/
def pushFrame (stream : String) : Option SMsg :=
  some ⟨false, 0, stream⟩

/-- Handlers for the counterexample: the handler of channel a panics on
Event with the plain string value foo (exactly the panicHandler of
stream_test.go), the handler of channel b is well behaved. -/
def demoHandlers : List (String × HandlerBehavior) :=
  [("a", .panics (.nonErrVal "foo")), ("b", .ok)]

/-- C9 counterexample: a handler that panics on Event with a non-error
value (a plain string, as the panicHandler of the repository's own test
does) is not contained by the fault boundary: the deferred recover
re-panics for non-error values, the dispatch goroutine dies unrecovered
taking the process and the listener with it, and a push for channel b
dispatched afterwards is never delivered. -/
theorem dispatch_fault_boundary_counterexample :
    listenRun demoHandlers [pushFrame "a", pushFrame "b"] =
      [.crashed "foo"] ∧
    (listenRun demoHandlers [pushFrame "a", pushFrame "b"]).length ≠ 2 := by
  refine ⟨by decide, by decide⟩

/-- C9 amended: the fault boundary contains exactly the panics whose
value implements the error interface: when every handler that fails
panics with an error value, every received frame is dispatched, no
dispatch crashes the process, and pushes to other channels keep being
delivered; a panic with a non-error value is re-raised by the boundary
and aborts the listener (see the counterexample). -/
theorem dispatch_fault_boundary (handlers : List (String × HandlerBehavior))
    (frames : List (Option SMsg))
    (hbound : ∀ p ∈ handlers, ∀ v, p.2 = .panics v →
      ∃ m, v = .errVal m) :
    (listenRun handlers frames).length = frames.length ∧
    (∀ o ∈ listenRun handlers frames, ∀ d, o ≠ .crashed d) := by
  have hone : ∀ f, ∀ d, runDispatch f handlers ≠ .crashed d := by
    intro f d
    cases f with
    | none => simp [runDispatch, dispatchPanicValue]
    | some msg =>
      simp only [runDispatch, dispatchPanicValue]
      by_cases h1 : msg.hasErr
      · simp [h1]
      · by_cases h2 : msg.id ≠ 0
        · simp [h1, h2]
        · by_cases h3 : msg.stream ≠ ""
          · simp only [h1, h2, h3, if_true, if_false, Bool.false_eq_true]
            cases hl : assocLookup handlers msg.stream with
            | none => simp
            | some b =>
              cases b with
              | ok => simp
              | panics v =>
                have hv := hbound _ (assocLookup_mem handlers _ _ hl) v rfl
                rcases hv with ⟨m, hm⟩
                rw [hm]
                simp [h3]
          · simp [h1, h2, h3]
  induction frames with
  | nil => exact ⟨rfl, by intro o ho; exact absurd ho (by simp [listenRun])⟩
  | cons f rest ih =>
    have hred : listenRun handlers (f :: rest) =
        runDispatch f handlers :: listenRun handlers rest := by
      cases ho : runDispatch f handlers with
      | normal => simp [listenRun, ho]
      | recovered m => simp [listenRun, ho]
      | crashed d => exact absurd ho (hone f d)
    rw [hred]
    refine ⟨by simp [ih.1], ?_⟩
    intro o ho d
    rcases List.mem_cons.1 ho with ho1 | ho1
    · rw [ho1]; exact hone f d
    · exact ih.2 o ho1 d

/-- Witness for C9 amended: with a handler that panics with an error
value on channel a and a healthy handler on channel b, both pushes are
dispatched, the first being caught and logged. -/
theorem dispatch_fault_boundary_witness :
    (listenRun [("a", .panics (.errVal "bad payload")), ("b", .ok)]
      [pushFrame "a", pushFrame "b"]).length = 2 :=
  (dispatch_fault_boundary [("a", .panics (.errVal "bad payload")), ("b", .ok)]
    [pushFrame "a", pushFrame "b"] (by
      intro p hp v hv
      rcases List.mem_cons.1 hp with h1 | h1
      · subst h1
        injection hv with h
        exact ⟨"bad payload", h.symm⟩
      · have h2 : p = ("b", .ok) := by simpa using h1
        subst h2
        exact absurd hv (by simp))).1
